import Mathlib

/-!
Shallow embedding of the core of `ipa-toolkit` (an IPA re-signing pipeline)
and proofs about it.

Python strings are modelled as lists of characters (`Str`), plist values as
the inductive `PValue`, and Python `dict`s (insertion ordered, unique keys)
as association lists with a stable in-place update operation (`dset`).

The embedded functions (names kept from the source):
  - `bundle_new_id_for`           from `src/ipa_toolkit/bundle_scan.py`
                                  (identical body: `_bundle_new_id_for` in `ipa.py`)
  - `adjust_entitlements_for_bundle` from `src/ipa_toolkit/entitlements.py`
                                  (identical body: `_adjust_entitlements_for_bundle` in `ipa.py`)
  - `validate_entitlements_for_bundle` from `src/ipa_toolkit/entitlements.py`
  - `build_entitlements_by_bundle`  from `src/ipa_toolkit/entitlements.py`
  - `ipaEntByBundle`              the inline entitlements-resolution loop of
                                  `_resign_ipa_in_tempdir` in `ipa.py`
  - `signTrace` / `pipelineSignPhase` the recursive signing walk of
                                  `sign_bundle_recursive` in `pipeline_utils.py`
                                  and the final verification in `ipa.py`
  - `signSelfStep`                the per-bundle sign step with its
                                  temporary-entitlements-file lifecycle
-/

namespace IpaToolkit

/-- Python strings, modelled as their sequence of characters. -/
abbrev Str := List Char

/-- Character data of a Lean string literal, used to write concrete `Str` values. -/
def chars (s : String) : Str := s.data

/-- Python `str.strip()`: remove leading and trailing whitespace. -/
def pyStrip (s : Str) : Str :=
  ((s.dropWhile Char.isWhitespace).reverse.dropWhile Char.isWhitespace).reverse

/-- Plist-style values as they occur in entitlements dictionaries
(Python `str`, `bool`, `int`, `list`, nested `dict`). -/
inductive PValue where
  | s (v : Str)
  | b (v : Bool)
  | i (v : Int)
  | arr (items : List PValue)
  | dict (entries : List (Str × PValue))

mutual

def PValue.deq : (a b : PValue) → Decidable (a = b)
  | .s v, .s w =>
    match decEq v w with
    | isTrue h => isTrue (by rw [h])
    | isFalse h => isFalse (by intro hc; cases hc; exact h rfl)
  | .b v, .b w =>
    match decEq v w with
    | isTrue h => isTrue (by rw [h])
    | isFalse h => isFalse (by intro hc; cases hc; exact h rfl)
  | .i v, .i w =>
    match decEq v w with
    | isTrue h => isTrue (by rw [h])
    | isFalse h => isFalse (by intro hc; cases hc; exact h rfl)
  | .arr xs, .arr ys =>
    match PValue.deqList xs ys with
    | isTrue h => isTrue (by rw [h])
    | isFalse h => isFalse (by intro hc; cases hc; exact h rfl)
  | .dict xs, .dict ys =>
    match PValue.deqEntries xs ys with
    | isTrue h => isTrue (by rw [h])
    | isFalse h => isFalse (by intro hc; cases hc; exact h rfl)
  | .s _, .b _ => isFalse (by intro hc; cases hc)
  | .s _, .i _ => isFalse (by intro hc; cases hc)
  | .s _, .arr _ => isFalse (by intro hc; cases hc)
  | .s _, .dict _ => isFalse (by intro hc; cases hc)
  | .b _, .s _ => isFalse (by intro hc; cases hc)
  | .b _, .i _ => isFalse (by intro hc; cases hc)
  | .b _, .arr _ => isFalse (by intro hc; cases hc)
  | .b _, .dict _ => isFalse (by intro hc; cases hc)
  | .i _, .s _ => isFalse (by intro hc; cases hc)
  | .i _, .b _ => isFalse (by intro hc; cases hc)
  | .i _, .arr _ => isFalse (by intro hc; cases hc)
  | .i _, .dict _ => isFalse (by intro hc; cases hc)
  | .arr _, .s _ => isFalse (by intro hc; cases hc)
  | .arr _, .b _ => isFalse (by intro hc; cases hc)
  | .arr _, .i _ => isFalse (by intro hc; cases hc)
  | .arr _, .dict _ => isFalse (by intro hc; cases hc)
  | .dict _, .s _ => isFalse (by intro hc; cases hc)
  | .dict _, .b _ => isFalse (by intro hc; cases hc)
  | .dict _, .i _ => isFalse (by intro hc; cases hc)
  | .dict _, .arr _ => isFalse (by intro hc; cases hc)

def PValue.deqList : (a b : List PValue) → Decidable (a = b)
  | [], [] => isTrue rfl
  | [], _ :: _ => isFalse (by intro hc; cases hc)
  | _ :: _, [] => isFalse (by intro hc; cases hc)
  | x :: xs, y :: ys =>
    match PValue.deq x y with
    | isTrue h1 =>
      match PValue.deqList xs ys with
      | isTrue h2 => isTrue (by rw [h1, h2])
      | isFalse h2 => isFalse (by intro hc; cases hc; exact h2 rfl)
    | isFalse h1 => isFalse (by intro hc; cases hc; exact h1 rfl)

def PValue.deqEntries : (a b : List (Str × PValue)) → Decidable (a = b)
  | [], [] => isTrue rfl
  | [], _ :: _ => isFalse (by intro hc; cases hc)
  | _ :: _, [] => isFalse (by intro hc; cases hc)
  | (k1, v1) :: xs, (k2, v2) :: ys =>
    match decEq k1 k2 with
    | isTrue hk =>
      match PValue.deq v1 v2 with
      | isTrue hv =>
        match PValue.deqEntries xs ys with
        | isTrue h2 => isTrue (by rw [hk, hv, h2])
        | isFalse h2 => isFalse (by intro hc; cases hc; exact h2 rfl)
      | isFalse hv => isFalse (by intro hc; cases hc; exact hv rfl)
    | isFalse hk => isFalse (by intro hc; cases hc; exact hk rfl)

end

instance : DecidableEq PValue := PValue.deq

/-- A Python `dict[str, ...]`: insertion-ordered association list with unique keys. -/
abbrev EntDoc := List (Str × PValue)

/-- Python `d.get(key)` / `d[key]`: value of the first (only) entry with this key. -/
def alookup {α : Type} : List (Str × α) → Str → Option α
  | [], _ => none
  | (k, v) :: rest, key => if key = k then some v else alookup rest key

/-- Lookup in an entitlements dictionary. -/
def dget (d : EntDoc) (key : Str) : Option PValue := alookup d key

/-- Python `key in d`. -/
def dcontains (d : EntDoc) (key : Str) : Bool := (dget d key).isSome

/-- Python `d[key] = v`: update the entry in place if the key is present,
append it otherwise (insertion-order semantics of CPython dicts). -/
def dset : EntDoc → Str → PValue → EntDoc
  | [], key, v => [(key, v)]
  | (k, w) :: rest, key, v =>
    if k = key then (key, v) :: rest else (k, w) :: dset rest key v

theorem alookup_map_value {α : Type} (f : Str → α) (l : List Str) (key : Str) :
    alookup (l.map fun b => (b, f b)) key =
      if key ∈ l then some (f key) else none := by
  induction l with
  | nil => simp [alookup]
  | cons x xs ih =>
    by_cases hx : key = x
    · subst hx; simp [alookup, ih]
    · simp [alookup, hx, ih]

theorem dget_dset (d : EntDoc) (k key : Str) (v : PValue) :
    dget (dset d k v) key = if key = k then some v else dget d key := by
  induction d with
  | nil => by_cases h : key = k <;> simp [dget, dset, alookup, h]
  | cons e rest ih =>
    obtain ⟨k0, w⟩ := e
    by_cases h0 : k0 = k
    · subst h0
      by_cases h : key = k0 <;> simp [dget, dset, alookup, h]
    · by_cases h : key = k0
      · subst h
        simp [dget, dset, alookup, h0]
      · simp [dget, dset, alookup, h0, h] at ih ⊢
        exact ih

theorem dset_self_of_dget (d : EntDoc) (k : Str) (v : PValue)
    (h : dget d k = some v) : dset d k v = d := by
  induction d with
  | nil => simp [dget, alookup] at h
  | cons e rest ih =>
    obtain ⟨k0, w⟩ := e
    by_cases h0 : k = k0
    · subst h0
      simp [dget, alookup] at h
      simp [dset, h]
    · simp [dget, alookup, h0] at h
      have h0' : ¬ (k0 = k) := fun hc => h0 hc.symm
      simp [dset, h0']
      exact ih h

/-! ## IdentifierMapper

Embeds `bundle_new_id_for` (`bundle_scan.py`, lines 70-78), whose body is
identical to `_bundle_new_id_for` (`ipa.py`, lines 72-80):

    if not new_main_id: return old_id
    if old_id == old_main_id: return new_main_id
    if old_id.startswith(old_main_id + "."): return new_main_id + old_id[len(old_main_id):]
    return old_id
-/

def bundle_new_id_for (old_id old_main_id new_main_id : Str) : Str :=
  if new_main_id = [] then old_id
  else if old_id = old_main_id then new_main_id
  else if (old_main_id ++ ['.']).isPrefixOf old_id then
    new_main_id ++ old_id.drop old_main_id.length
  else old_id

theorem length_lt_of_isPrefixOf_append_cons (a : Str) (x : Char) (b : Str)
    (h : (a ++ [x]).isPrefixOf b = true) : a.length < b.length := by
  have hp : (a ++ [x]) <+: b := by
    rwa [List.isPrefixOf_iff_prefix] at h
  have hl := hp.length_le
  simp at hl
  omega

/-- C1: the prefix case of the identifier mapper excludes the equality case. -/
theorem ne_of_prefixCase (old_id old_main_id : Str)
    (h : (old_main_id ++ ['.']).isPrefixOf old_id = true) : old_id ≠ old_main_id := by
  intro hc
  have := length_lt_of_isPrefixOf_append_cons old_main_id '.' old_id h
  rw [hc] at this
  omega

/-- C1: the identifier mapping function (`bundle_new_id_for` in `bundle_scan.py`,
`_bundle_new_id_for` in `ipa.py`) returns `oldId` when `newMainId` is empty;
`newMainId` when `oldId` equals `oldMainId`; `newMainId` concatenated with the
remainder of `oldId` after the `oldMainId` prefix (which keeps its leading `'.'`)
when `oldId` starts with `oldMainId` followed by `'.'`; and `oldId` unchanged in
every other case. -/
theorem bundle_new_id_for_spec (oldId oldMainId newMainId : Str) :
    (newMainId = [] → bundle_new_id_for oldId oldMainId newMainId = oldId) ∧
    (newMainId ≠ [] → oldId = oldMainId →
      bundle_new_id_for oldId oldMainId newMainId = newMainId) ∧
    (newMainId ≠ [] → (oldMainId ++ ['.']).isPrefixOf oldId = true →
      bundle_new_id_for oldId oldMainId newMainId =
        newMainId ++ oldId.drop oldMainId.length) ∧
    (newMainId ≠ [] → oldId ≠ oldMainId → (oldMainId ++ ['.']).isPrefixOf oldId = false →
      bundle_new_id_for oldId oldMainId newMainId = oldId) := by
  refine ⟨fun h => ?_, fun h1 h2 => ?_, fun h1 h2 => ?_, fun h1 h2 h3 => ?_⟩
  · simp [bundle_new_id_for, h]
  · simp [bundle_new_id_for, h1, h2]
  · have hne := ne_of_prefixCase oldId oldMainId h2
    simp [bundle_new_id_for, h1, hne, h2]
  · simp [bundle_new_id_for, h1, h2, h3]

/-- Witness for C1 at the spec's own test vectors. -/
theorem bundle_new_id_for_spec_witness :
    bundle_new_id_for (chars "com.old.app") (chars "com.old.app") [] = chars "com.old.app" ∧
    bundle_new_id_for (chars "com.old.app") (chars "com.old.app") (chars "com.new.app")
      = chars "com.new.app" ∧
    bundle_new_id_for (chars "com.old.app.share") (chars "com.old.app") (chars "com.new.app")
      = chars "com.new.app.share" ∧
    bundle_new_id_for (chars "com.other.app") (chars "com.old.app") (chars "com.new.app")
      = chars "com.other.app" := by
  refine ⟨?_, ?_, ?_, ?_⟩
  · exact (bundle_new_id_for_spec (chars "com.old.app") (chars "com.old.app") []).1 rfl
  · exact (bundle_new_id_for_spec (chars "com.old.app") (chars "com.old.app")
      (chars "com.new.app")).2.1 (by decide) rfl
  · have h := (bundle_new_id_for_spec (chars "com.old.app.share") (chars "com.old.app")
      (chars "com.new.app")).2.2.1 (by decide) (by decide)
    rw [h]; decide
  · exact (bundle_new_id_for_spec (chars "com.other.app") (chars "com.old.app")
      (chars "com.new.app")).2.2.2 (by decide) (by decide) (by decide)

/-! ## Entitlements rewriting

Embeds `adjust_entitlements_for_bundle` (`entitlements.py`, lines 15-44), whose
body is identical to `_adjust_entitlements_for_bundle` (`ipa.py`, lines 110-140):

    if not team_id or old_bundle_id == new_bundle_id: return ent
    out = dict(ent)
    new_prefix = f"{team_id}.{new_bundle_id}"
    for key in ("application-identifier", "com.apple.application-identifier"):
        if key in out: out[key] = new_prefix
    kag = out.get("keychain-access-groups")
    if isinstance(kag, list):
        old_prefix = f"{team_id}.{old_bundle_id}"
        new_kag = [new_prefix + item[len(old_prefix):]
                   if isinstance(item, str) and item.startswith(old_prefix) else item
                   for item in kag]
        out["keychain-access-groups"] = new_kag
    return out
-/

def appIdKey : Str := chars "application-identifier"

def appleAppIdKey : Str := chars "com.apple.application-identifier"

def kagKey : Str := chars "keychain-access-groups"

/-- Python `out[key] = v` guarded by `if key in out`. -/
def setIfPresent (d : EntDoc) (key : Str) (v : PValue) : EntDoc :=
  if dcontains d key then dset d key v else d

/-- One element of the keychain-access-groups rewrite:
`new_prefix + item[len(old_prefix):] if isinstance(item, str) and
item.startswith(old_prefix) else item`. -/
def rewriteKagItem (oldPre newPre : Str) : PValue → PValue
  | .s v => if oldPre.isPrefixOf v then .s (newPre ++ v.drop oldPre.length) else .s v
  | x => x

/-- Rewrite of the `keychain-access-groups` entry when its value is a list. -/
def adjustKag (d : EntDoc) (oldPre newPre : Str) : EntDoc :=
  match dget d kagKey with
  | some (.arr kag) => dset d kagKey (.arr (kag.map (rewriteKagItem oldPre newPre)))
  | _ => d

def adjust_entitlements_for_bundle (ent : EntDoc)
    (team_id old_bundle_id new_bundle_id : Str) : EntDoc :=
  if team_id = [] ∨ old_bundle_id = new_bundle_id then ent
  else
    adjustKag
      (setIfPresent (setIfPresent ent appIdKey (.s (team_id ++ '.' :: new_bundle_id)))
        appleAppIdKey (.s (team_id ++ '.' :: new_bundle_id)))
      (team_id ++ '.' :: old_bundle_id) (team_id ++ '.' :: new_bundle_id)

theorem dget_setIfPresent_ne (d : EntDoc) (k key : Str) (v : PValue) (h : key ≠ k) :
    dget (setIfPresent d k v) key = dget d key := by
  unfold setIfPresent
  by_cases hc : dcontains d k = true <;> simp [hc, dget_dset, h]

theorem dget_setIfPresent_self (d : EntDoc) (k : Str) (v : PValue) :
    dget (setIfPresent d k v) k = Option.map (fun _ => v) (dget d k) := by
  unfold setIfPresent
  by_cases hc : dcontains d k = true
  · have hc' := hc
    unfold dcontains at hc'
    obtain ⟨w, hw⟩ := Option.isSome_iff_exists.mp hc'
    simp [hc, dget_dset, hw]
  · have hc' := hc
    unfold dcontains at hc'
    simp at hc'
    simp [hc, hc']

theorem dget_adjustKag_ne (d : EntDoc) (oldPre newPre key : Str) (h : key ≠ kagKey) :
    dget (adjustKag d oldPre newPre) key = dget d key := by
  unfold adjustKag
  cases hk : dget d kagKey with
  | none => rfl
  | some v =>
    cases v with
    | arr items => simp [dget_dset, h]
    | s w => rfl
    | b w => rfl
    | i w => rfl
    | dict w => rfl

theorem appIdKey_ne_appleAppIdKey : appIdKey ≠ appleAppIdKey := by decide

theorem appIdKey_ne_kagKey : appIdKey ≠ kagKey := by decide

theorem appleAppIdKey_ne_kagKey : appleAppIdKey ≠ kagKey := by decide

theorem rewriteKagItem_spec (oldPre newPre : Str) (x : PValue) :
    (∀ v, x = PValue.s v → oldPre.isPrefixOf v = true →
      rewriteKagItem oldPre newPre x = PValue.s (newPre ++ v.drop oldPre.length)) ∧
    (∀ v, x = PValue.s v → oldPre.isPrefixOf v = false →
      rewriteKagItem oldPre newPre x = x) ∧
    ((∀ v, x ≠ PValue.s v) → rewriteKagItem oldPre newPre x = x) := by
  cases x with
  | s v =>
    refine ⟨?_, ?_, ?_⟩
    · intro w hw hp
      cases hw
      simp [rewriteKagItem, hp]
    · intro w hw hp
      cases hw
      simp [rewriteKagItem, hp]
    · intro hv
      exact absurd rfl (hv v)
  | b v =>
    refine ⟨?_, ?_, fun _ => rfl⟩ <;> intro w hw <;> cases hw
  | i v =>
    refine ⟨?_, ?_, fun _ => rfl⟩ <;> intro w hw <;> cases hw
  | arr v =>
    refine ⟨?_, ?_, fun _ => rfl⟩ <;> intro w hw <;> cases hw
  | dict v =>
    refine ⟨?_, ?_, fun _ => rfl⟩ <;> intro w hw <;> cases hw

/-- C2: with a non-empty team id and a changed bundle id, the rewrite sets each
application-identifier key that was present to `teamId + "." + newId`, and maps
the `keychain-access-groups` list pointwise: a string element carrying the
`teamId + "." + oldId` prefix gets the prefix replaced by `teamId + "." + newId`
with its suffix preserved, every other element is unchanged, and the order (and
length) of the list is preserved (stated via `List.Forall₂`). -/
theorem adjust_entitlements_spec (ent : EntDoc) (team old new : Str)
    (hteam : team ≠ []) (hne : old ≠ new) :
    (dcontains ent appIdKey = true →
      dget (adjust_entitlements_for_bundle ent team old new) appIdKey
        = some (PValue.s (team ++ '.' :: new))) ∧
    (dcontains ent appleAppIdKey = true →
      dget (adjust_entitlements_for_bundle ent team old new) appleAppIdKey
        = some (PValue.s (team ++ '.' :: new))) ∧
    (∀ kag, dget ent kagKey = some (PValue.arr kag) →
      ∃ kag2,
        dget (adjust_entitlements_for_bundle ent team old new) kagKey
          = some (PValue.arr kag2) ∧
        List.Forall₂ (fun a b =>
          (∀ v, a = PValue.s v → (team ++ '.' :: old).isPrefixOf v = true →
            b = PValue.s ((team ++ '.' :: new) ++ v.drop (team ++ '.' :: old).length)) ∧
          (∀ v, a = PValue.s v → (team ++ '.' :: old).isPrefixOf v = false → b = a) ∧
          ((∀ v, a ≠ PValue.s v) → b = a)) kag kag2) := by
  have hcond : ¬ (team = [] ∨ old = new) := by
    rintro (h | h)
    · exact hteam h
    · exact hne h
  have hadj : adjust_entitlements_for_bundle ent team old new =
      adjustKag
        (setIfPresent (setIfPresent ent appIdKey (PValue.s (team ++ '.' :: new)))
          appleAppIdKey (PValue.s (team ++ '.' :: new)))
        (team ++ '.' :: old) (team ++ '.' :: new) := by
    simp [adjust_entitlements_for_bundle, hcond]
  refine ⟨?_, ?_, ?_⟩
  · intro hc
    rw [hadj, dget_adjustKag_ne _ _ _ _ appIdKey_ne_kagKey,
      dget_setIfPresent_ne _ _ _ _ appIdKey_ne_appleAppIdKey,
      dget_setIfPresent_self]
    unfold dcontains at hc
    obtain ⟨w, hw⟩ := Option.isSome_iff_exists.mp hc
    simp [hw]
  · intro hc
    have hc2 : dcontains (setIfPresent ent appIdKey (PValue.s (team ++ '.' :: new)))
        appleAppIdKey = true := by
      unfold dcontains
      rw [dget_setIfPresent_ne _ _ _ _ (Ne.symm appIdKey_ne_appleAppIdKey)]
      exact hc
    rw [hadj, dget_adjustKag_ne _ _ _ _ appleAppIdKey_ne_kagKey,
      dget_setIfPresent_self]
    unfold dcontains at hc2
    obtain ⟨w, hw⟩ := Option.isSome_iff_exists.mp hc2
    simp [hw]
  · intro kag hkag
    have hgetB : dget
        (setIfPresent (setIfPresent ent appIdKey (PValue.s (team ++ '.' :: new)))
          appleAppIdKey (PValue.s (team ++ '.' :: new))) kagKey
        = some (PValue.arr kag) := by
      rw [dget_setIfPresent_ne _ _ _ _ (Ne.symm appleAppIdKey_ne_kagKey)]
      rw [dget_setIfPresent_ne _ _ _ _ (Ne.symm appIdKey_ne_kagKey)]
      exact hkag
    refine ⟨kag.map (rewriteKagItem (team ++ '.' :: old) (team ++ '.' :: new)), ?_, ?_⟩
    · rw [hadj]
      unfold adjustKag
      rw [hgetB]
      simp [dget_dset]
    · rw [List.forall₂_map_right_iff]
      rw [List.forall₂_same]
      intro x _
      exact rewriteKagItem_spec (team ++ '.' :: old) (team ++ '.' :: new) x

def entC2 : EntDoc :=
  [(appIdKey, PValue.s (chars "TEAM123.com.old.app")),
   (appleAppIdKey, PValue.s (chars "TEAM123.com.old.app")),
   (kagKey, PValue.arr [PValue.s (chars "TEAM123.com.old.app"),
     PValue.s (chars "TEAM123.com.old.app.shared"), PValue.s (chars "TEAM123.other")])]

/-- Witness for C2 at the spec's own test vector. -/
theorem adjust_entitlements_spec_witness :
    dget (adjust_entitlements_for_bundle entC2 (chars "TEAM123")
        (chars "com.old.app") (chars "com.new.app")) appIdKey
      = some (PValue.s (chars "TEAM123" ++ '.' :: chars "com.new.app")) ∧
    dget (adjust_entitlements_for_bundle entC2 (chars "TEAM123")
        (chars "com.old.app") (chars "com.new.app")) appleAppIdKey
      = some (PValue.s (chars "TEAM123" ++ '.' :: chars "com.new.app")) :=
  ⟨(adjust_entitlements_spec entC2 (chars "TEAM123") (chars "com.old.app")
      (chars "com.new.app") (by decide) (by decide)).1 (by decide),
   (adjust_entitlements_spec entC2 (chars "TEAM123") (chars "com.old.app")
      (chars "com.new.app") (by decide) (by decide)).2.1 (by decide)⟩

/-- C9: the rewrite maps every key other than the two application-identifier keys
and `keychain-access-groups` to the same value as in the input document. (The
embedding is pure: the source builds its result on a copy `dict(ent)` and on
freshly built lists, so the input document itself is never mutated.) -/
theorem adjust_entitlements_frame (ent : EntDoc) (team old new : Str) (key : Str)
    (h1 : key ≠ appIdKey) (h2 : key ≠ appleAppIdKey) (h3 : key ≠ kagKey) :
    dget (adjust_entitlements_for_bundle ent team old new) key = dget ent key := by
  unfold adjust_entitlements_for_bundle
  by_cases hc : team = [] ∨ old = new
  · simp [hc]
  · simp [hc]
    rw [dget_adjustKag_ne _ _ _ _ h3, dget_setIfPresent_ne _ _ _ _ h2,
      dget_setIfPresent_ne _ _ _ _ h1]

def entC9 : EntDoc :=
  [(appIdKey, PValue.s (chars "TEAM123.com.old.app")),
   (chars "get-task-allow", PValue.b true)]

/-- Witness for C9 at a concrete document and untouched key. -/
theorem adjust_entitlements_frame_witness :
    dget (adjust_entitlements_for_bundle entC9 (chars "TEAM123")
        (chars "com.old.app") (chars "com.new.app")) (chars "get-task-allow")
      = dget entC9 (chars "get-task-allow") :=
  adjust_entitlements_frame entC9 (chars "TEAM123") (chars "com.old.app")
    (chars "com.new.app") (chars "get-task-allow") (by decide) (by decide) (by decide)

/-! ## Idempotence of the rewrite (C3)

The spec asserts that rewriting twice with the same parameters equals
rewriting once. On the code this fails when one of the two full prefixes
`teamId + "." + oldId` / `teamId + "." + newId` is a prefix of the other:
a first rewrite can then produce elements that still (or again) carry the
old prefix, and a second pass rewrites them again.
-/

def entC3 : EntDoc := [(kagKey, PValue.arr [PValue.s (chars "T.a.x")])]

/-- Counterexample to C3 as stated: with `teamId = "T"`, `oldId = "a"`,
`newId = "aa"` the element `"T.a.x"` becomes `"T.aa.x"` after one rewrite and
`"T.aaa.x"` after two, so the rewrite is not idempotent. -/
theorem adjust_entitlements_not_idempotent :
    adjust_entitlements_for_bundle
        (adjust_entitlements_for_bundle entC3 (chars "T") (chars "a") (chars "aa"))
        (chars "T") (chars "a") (chars "aa")
      ≠ adjust_entitlements_for_bundle entC3 (chars "T") (chars "a") (chars "aa") := by
  decide

theorem setIfPresent_absorb (d : EntDoc) (k : Str) (v : PValue)
    (h : ∀ w, dget d k = some w → w = v) : setIfPresent d k v = d := by
  unfold setIfPresent
  by_cases hc : dcontains d k = true
  · simp [hc]
    have hc' := hc
    unfold dcontains at hc'
    obtain ⟨w, hw⟩ := Option.isSome_iff_exists.mp hc'
    rw [h w hw] at hw
    exact dset_self_of_dget d k v hw
  · simp [hc]

theorem rewriteKagItem_idem (oldPre newPre : Str)
    (h1 : oldPre.isPrefixOf newPre = false) (h2 : newPre.isPrefixOf oldPre = false)
    (x : PValue) :
    rewriteKagItem oldPre newPre (rewriteKagItem oldPre newPre x)
      = rewriteKagItem oldPre newPre x := by
  cases x with
  | s v =>
    by_cases hp : oldPre.isPrefixOf v = true
    · have hno : oldPre.isPrefixOf (newPre ++ v.drop oldPre.length) = false := by
        by_contra hcc
        rw [Bool.not_eq_false, List.isPrefixOf_iff_prefix] at hcc
        have hnewPre : newPre <+: newPre ++ v.drop oldPre.length := List.prefix_append _ _
        rcases le_total oldPre.length newPre.length with hle | hle
        · have : oldPre <+: newPre := List.prefix_of_prefix_length_le hcc hnewPre hle
          rw [← List.isPrefixOf_iff_prefix] at this
          rw [this] at h1
          cases h1
        · have : newPre <+: oldPre := List.prefix_of_prefix_length_le hnewPre hcc hle
          rw [← List.isPrefixOf_iff_prefix] at this
          rw [this] at h2
          cases h2
      simp [rewriteKagItem, hp, hno]
    · rw [Bool.not_eq_true] at hp
      simp [rewriteKagItem, hp]
  | b v => rfl
  | i v => rfl
  | arr v => rfl
  | dict v => rfl

theorem adjustKag_of_arr (d : EntDoc) (oldPre newPre : Str) (kag : List PValue)
    (h : dget d kagKey = some (PValue.arr kag)) :
    adjustKag d oldPre newPre
      = dset d kagKey (PValue.arr (kag.map (rewriteKagItem oldPre newPre))) := by
  unfold adjustKag
  rw [h]

theorem adjustKag_of_not_arr (d : EntDoc) (oldPre newPre : Str)
    (h : ∀ kag, dget d kagKey ≠ some (PValue.arr kag)) :
    adjustKag d oldPre newPre = d := by
  unfold adjustKag
  cases hx : dget d kagKey with
  | none => rfl
  | some v =>
    cases v with
    | arr kag => exact absurd hx (h kag)
    | s w => rfl
    | b w => rfl
    | i w => rfl
    | dict w => rfl

/-- Amended C3: the rewrite is idempotent whenever `teamId` is empty, or
`oldId = newId`, or neither of `teamId + "." + oldId` and `teamId + "." + newId`
is a prefix of the other (which is the case for every real identifier change,
e.g. the spec's own `com.old.app` / `com.new.app` vectors). -/
theorem adjust_entitlements_idempotent (ent : EntDoc) (team old new : Str)
    (h : team = [] ∨ old = new ∨
      ((team ++ '.' :: old).isPrefixOf (team ++ '.' :: new) = false ∧
       (team ++ '.' :: new).isPrefixOf (team ++ '.' :: old) = false)) :
    adjust_entitlements_for_bundle
        (adjust_entitlements_for_bundle ent team old new) team old new
      = adjust_entitlements_for_bundle ent team old new := by
  by_cases hcond : team = [] ∨ old = new
  · simp [adjust_entitlements_for_bundle, hcond]
  · have hpf : (team ++ '.' :: old).isPrefixOf (team ++ '.' :: new) = false ∧
        (team ++ '.' :: new).isPrefixOf (team ++ '.' :: old) = false := by
      rcases h with h | h | h
      · exact absurd (Or.inl h) hcond
      · exact absurd (Or.inr h) hcond
      · exact h
    have hadj : ∀ d : EntDoc,
        adjust_entitlements_for_bundle d team old new =
          adjustKag
            (setIfPresent (setIfPresent d appIdKey (PValue.s (team ++ '.' :: new)))
              appleAppIdKey (PValue.s (team ++ '.' :: new)))
            (team ++ '.' :: old) (team ++ '.' :: new) := by
      intro d
      simp [adjust_entitlements_for_bundle, hcond]
    have hBk1 : ∀ d : EntDoc,
        dget (setIfPresent (setIfPresent d appIdKey (PValue.s (team ++ '.' :: new)))
          appleAppIdKey (PValue.s (team ++ '.' :: new))) appIdKey
        = Option.map (fun _ => PValue.s (team ++ '.' :: new)) (dget d appIdKey) := by
      intro d
      rw [dget_setIfPresent_ne _ _ _ _ appIdKey_ne_appleAppIdKey, dget_setIfPresent_self]
    have hBk2 : ∀ d : EntDoc,
        dget (setIfPresent (setIfPresent d appIdKey (PValue.s (team ++ '.' :: new)))
          appleAppIdKey (PValue.s (team ++ '.' :: new))) appleAppIdKey
        = Option.map (fun _ => PValue.s (team ++ '.' :: new)) (dget d appleAppIdKey) := by
      intro d
      rw [dget_setIfPresent_self,
        dget_setIfPresent_ne _ _ _ _ (Ne.symm appIdKey_ne_appleAppIdKey)]
    have hBkag : ∀ d : EntDoc,
        dget (setIfPresent (setIfPresent d appIdKey (PValue.s (team ++ '.' :: new)))
          appleAppIdKey (PValue.s (team ++ '.' :: new))) kagKey = dget d kagKey := by
      intro d
      rw [dget_setIfPresent_ne _ _ _ _ (Ne.symm appleAppIdKey_ne_kagKey),
        dget_setIfPresent_ne _ _ _ _ (Ne.symm appIdKey_ne_kagKey)]
    have hAk1 : ∀ w, dget (adjust_entitlements_for_bundle ent team old new) appIdKey
        = some w → w = PValue.s (team ++ '.' :: new) := by
      intro w hw
      rw [hadj ent, dget_adjustKag_ne _ _ _ _ appIdKey_ne_kagKey, hBk1 ent] at hw
      cases hx : dget ent appIdKey <;> rw [hx] at hw <;> simp at hw
      exact hw.symm
    have hAk2 : ∀ w, dget (adjust_entitlements_for_bundle ent team old new) appleAppIdKey
        = some w → w = PValue.s (team ++ '.' :: new) := by
      intro w hw
      rw [hadj ent, dget_adjustKag_ne _ _ _ _ appleAppIdKey_ne_kagKey, hBk2 ent] at hw
      cases hx : dget ent appleAppIdKey <;> rw [hx] at hw <;> simp at hw
      exact hw.symm
    rw [hadj (adjust_entitlements_for_bundle ent team old new)]
    rw [setIfPresent_absorb _ _ _ hAk1]
    rw [setIfPresent_absorb _ _ _ hAk2]
    by_cases hx : ∃ kag, dget ent kagKey = some (PValue.arr kag)
    · obtain ⟨kag, hk⟩ := hx
      have hBkagv : dget (setIfPresent (setIfPresent ent appIdKey
          (PValue.s (team ++ '.' :: new))) appleAppIdKey (PValue.s (team ++ '.' :: new)))
          kagKey = some (PValue.arr kag) := by
        rw [hBkag ent]
        exact hk
      have hA_eq : adjust_entitlements_for_bundle ent team old new
          = dset (setIfPresent (setIfPresent ent appIdKey (PValue.s (team ++ '.' :: new)))
              appleAppIdKey (PValue.s (team ++ '.' :: new))) kagKey
              (PValue.arr (kag.map
                (rewriteKagItem (team ++ '.' :: old) (team ++ '.' :: new)))) := by
        rw [hadj ent]
        exact adjustKag_of_arr _ _ _ _ hBkagv
      have hAkag : dget (adjust_entitlements_for_bundle ent team old new) kagKey
          = some (PValue.arr (kag.map
              (rewriteKagItem (team ++ '.' :: old) (team ++ '.' :: new)))) := by
        rw [hA_eq]
        simp [dget_dset]
      rw [adjustKag_of_arr _ _ _ _ hAkag]
      have hmap : (kag.map (rewriteKagItem (team ++ '.' :: old) (team ++ '.' :: new))).map
            (rewriteKagItem (team ++ '.' :: old) (team ++ '.' :: new))
          = kag.map (rewriteKagItem (team ++ '.' :: old) (team ++ '.' :: new)) := by
        rw [List.map_map]
        exact List.map_congr_left fun a _ =>
          rewriteKagItem_idem (team ++ '.' :: old) (team ++ '.' :: new) hpf.1 hpf.2 a
      rw [hmap]
      exact dset_self_of_dget _ _ _ hAkag
    · push_neg at hx
      have hBv : ∀ kag', dget (setIfPresent (setIfPresent ent appIdKey
          (PValue.s (team ++ '.' :: new))) appleAppIdKey (PValue.s (team ++ '.' :: new)))
          kagKey ≠ some (PValue.arr kag') := by
        intro kag' hk
        rw [hBkag ent] at hk
        exact hx kag' hk
      have hA_eq : adjust_entitlements_for_bundle ent team old new
          = setIfPresent (setIfPresent ent appIdKey (PValue.s (team ++ '.' :: new)))
              appleAppIdKey (PValue.s (team ++ '.' :: new)) := by
        rw [hadj ent]
        exact adjustKag_of_not_arr _ _ _ hBv
      have hAv : ∀ kag', dget (adjust_entitlements_for_bundle ent team old new) kagKey
          ≠ some (PValue.arr kag') := by
        intro kag' hk
        rw [hA_eq] at hk
        exact hBv kag' hk
      exact adjustKag_of_not_arr _ _ _ hAv

/-- Witness for the amended C3 at the spec's own test vector. -/
theorem adjust_entitlements_idempotent_witness :
    adjust_entitlements_for_bundle
        (adjust_entitlements_for_bundle entC2 (chars "TEAM123")
          (chars "com.old.app") (chars "com.new.app"))
        (chars "TEAM123") (chars "com.old.app") (chars "com.new.app")
      = adjust_entitlements_for_bundle entC2 (chars "TEAM123")
          (chars "com.old.app") (chars "com.new.app") :=
  adjust_entitlements_idempotent entC2 (chars "TEAM123") (chars "com.old.app")
    (chars "com.new.app") (Or.inr (Or.inr (by decide)))

/-! ## Entitlements validation

Embeds `validate_entitlements_for_bundle` and its helper
`_team_id_from_app_identifier` (`entitlements.py`, lines 47-125). The Python
function accumulates violation strings in a list `errors` and raises a single
`SystemExit` at the end when the list is non-empty; the embedding computes the
same list (`validateErrors`) and returns `Except.error` with the same message.
-/

def _team_id_from_app_identifier (v : Str) : Str :=
  if '.' ∈ v then pyStrip (v.takeWhile fun c => c ≠ '.') else []

/-- Classification of one application-identifier key in the validation loop:
`none` = key absent (`continue`), `some none` = present but not a non-empty
string (error), `some (some v)` = valid with stripped value `v`. -/
def appIdStep (ent : EntDoc) (key : Str) : Option (Option Str) :=
  match dget ent key with
  | none => none
  | some (PValue.s v) => if pyStrip v = [] then some none else some (some (pyStrip v))
  | some _ => some none

def appIdErrors (ent : EntDoc) : List Str :=
  [appIdKey, appleAppIdKey].filterMap fun key =>
    match appIdStep ent key with
    | some none => some (key ++ chars " must be a non-empty string")
    | _ => none

/-- The `app_ids` dictionary collected by the validation loop. -/
def app_ids (ent : EntDoc) : List (Str × Str) :=
  [appIdKey, appleAppIdKey].filterMap fun key =>
    match appIdStep ent key with
    | some (some v) => some (key, v)
    | _ => none

/-- The team-id inference loop over `app_ids.values()`. -/
def inferredTeam (ids : List (Str × Str)) : Str :=
  ((ids.map fun kv => _team_id_from_app_identifier kv.2).find? fun t => !t.isEmpty).getD []

/-- The `team_id` used by validation: the stripped profile team id when the
profile supplies a non-empty one, otherwise the first team id inferable from a
collected application-identifier value. -/
def computedTeam (ent : EntDoc) (profile_team_id : Str) : Str :=
  let t0 := if profile_team_id ≠ [] then pyStrip profile_team_id else []
  if t0 = [] then inferredTeam (app_ids ent) else t0

def kagErrors (ent : EntDoc) (team old_bundle_id new_bundle_id : Str) : List Str :=
  match dget ent kagKey with
  | none => []
  | some (PValue.arr kag) =>
    (kag.enum.filterMap fun p =>
      match p.2 with
      | PValue.s _ => none
      | _ => some (chars "keychain-access-groups[" ++ (Nat.repr p.1).data
          ++ chars "] must be a string"))
    ++ (if team ≠ [] ∧ old_bundle_id ≠ [] ∧ new_bundle_id ≠ [] ∧
          old_bundle_id ≠ new_bundle_id then
          (if (kag.filter fun x =>
                match x with
                | PValue.s v => (team ++ '.' :: old_bundle_id).isPrefixOf v
                | _ => false) ≠ [] then
            [chars "keychain-access-groups contains old bundle prefix "
              ++ (team ++ '.' :: old_bundle_id)]
          else [])
        else [])
  | some _ => [chars "keychain-access-groups must be an array"]

/-- The full ordered list of violations the validator collects for one bundle. -/
def validateErrors (ent : EntDoc)
    (old_bundle_id new_bundle_id profile_team_id : Str)
    (require_app_identifier : Bool) : List Str :=
  let ids := app_ids ent
  let team := computedTeam ent profile_team_id
  let expected :=
    if team ≠ [] ∧ new_bundle_id ≠ [] then team ++ '.' :: new_bundle_id else []
  appIdErrors ent
  ++ (if require_app_identifier = true ∧ ids = [] then
        [chars "missing application-identifier/com.apple.application-identifier"]
      else [])
  ++ (if 1 < ((ids.map Prod.snd).dedup).length then
        [chars "application-identifier and com.apple.application-identifier must match"]
      else [])
  ++ (if expected ≠ [] then
        ids.filterMap fun kv =>
          if kv.2 ≠ expected then
            some (kv.1 ++ chars " mismatch: expected " ++ expected
              ++ chars ", got " ++ kv.2)
          else none
      else [])
  ++ kagErrors ent team old_bundle_id new_bundle_id

/-- Python `sep.join(parts)`. -/
def sepJoin (sep : Str) : List Str → Str
  | [] => []
  | [x] => x
  | x :: y :: rest => x ++ sep ++ sepJoin sep (y :: rest)

def validate_entitlements_for_bundle (bundle_path : Str) (ent : Option EntDoc)
    (old_bundle_id new_bundle_id profile_team_id : Str)
    (require_app_identifier : Bool) : Except Str Unit :=
  match ent with
  | none => .ok ()
  | some e =>
    let errs := validateErrors e old_bundle_id new_bundle_id profile_team_id
      require_app_identifier
    if errs = [] then .ok ()
    else .error (chars "Error: invalid entitlements for bundle " ++ bundle_path
      ++ chars ":\n  - " ++ sepJoin (chars "\n  - ") errs)

def isErr : Except Str Unit → Bool
  | .error _ => true
  | .ok _ => false

def errMsgOf : Except Str Unit → Str
  | .error m => m
  | .ok _ => []

theorem mem_infix_sepJoin (sep : Str) (l : List Str) (e : Str) (h : e ∈ l) :
    e <:+: sepJoin sep l := by
  induction l with
  | nil => cases h
  | cons x xs ih =>
    cases xs with
    | nil =>
      simp at h
      subst h
      exact List.infix_refl _
    | cons y rest =>
      rcases List.mem_cons.mp h with h | h
      · subst h
        have hp : e <+: e ++ (sep ++ sepJoin sep (y :: rest)) := List.prefix_append _ _
        have : sepJoin sep (e :: y :: rest) = e ++ (sep ++ sepJoin sep (y :: rest)) := by
          simp [sepJoin, List.append_assoc]
        rw [this]
        exact hp.isInfix
      · have hin := ih h
        have hsuf : sepJoin sep (y :: rest) <:+
            (x ++ sep) ++ sepJoin sep (y :: rest) := List.suffix_append _ _
        have : sepJoin sep (x :: y :: rest) = (x ++ sep) ++ sepJoin sep (y :: rest) := by
          simp [sepJoin]
        rw [this]
        exact hin.trans hsuf.isInfix

/-- C6: validation returns normally for absent entitlements and for documents
with no detected violation; when violations exist it produces a single fatal
error whose message names the bundle path and contains every collected
violation (all violations are reported together, not just the first). -/
theorem validate_reports_all_violations
    (bundle_path : Str) (ent : EntDoc) (old new profTeam : Str) (strict : Bool) :
    validate_entitlements_for_bundle bundle_path none old new profTeam strict
      = .ok () ∧
    (validateErrors ent old new profTeam strict = [] →
      validate_entitlements_for_bundle bundle_path (some ent) old new profTeam strict
        = .ok ()) ∧
    (validateErrors ent old new profTeam strict ≠ [] →
      isErr (validate_entitlements_for_bundle bundle_path (some ent) old new
        profTeam strict) = true ∧
      bundle_path <:+: errMsgOf (validate_entitlements_for_bundle bundle_path
        (some ent) old new profTeam strict) ∧
      ∀ e ∈ validateErrors ent old new profTeam strict,
        e <:+: errMsgOf (validate_entitlements_for_bundle bundle_path (some ent)
          old new profTeam strict)) := by
  refine ⟨rfl, fun h => ?_, fun h => ?_⟩
  · simp [validate_entitlements_for_bundle, h]
  · have hval : validate_entitlements_for_bundle bundle_path (some ent) old new
        profTeam strict
        = .error (chars "Error: invalid entitlements for bundle " ++ bundle_path
            ++ chars ":\n  - "
            ++ sepJoin (chars "\n  - ") (validateErrors ent old new profTeam strict)) := by
      simp [validate_entitlements_for_bundle, h]
    refine ⟨by rw [hval]; rfl, ?_, ?_⟩
    · rw [hval]
      refine ⟨chars "Error: invalid entitlements for bundle ",
        chars ":\n  - "
          ++ sepJoin (chars "\n  - ") (validateErrors ent old new profTeam strict), ?_⟩
      simp [errMsgOf, List.append_assoc]
    · intro e he
      rw [hval]
      have h1 : e <:+: sepJoin (chars "\n  - ") (validateErrors ent old new profTeam strict) :=
        mem_infix_sepJoin _ _ _ he
      have h2 : sepJoin (chars "\n  - ") (validateErrors ent old new profTeam strict) <:+
          (chars "Error: invalid entitlements for bundle " ++ bundle_path
            ++ chars ":\n  - ")
          ++ sepJoin (chars "\n  - ") (validateErrors ent old new profTeam strict) :=
        List.suffix_append _ _
      have heq : errMsgOf (Except.error (α := Unit)
          (chars "Error: invalid entitlements for bundle " ++ bundle_path
            ++ chars ":\n  - "
            ++ sepJoin (chars "\n  - ") (validateErrors ent old new profTeam strict)))
          = (chars "Error: invalid entitlements for bundle " ++ bundle_path
            ++ chars ":\n  - ")
          ++ sepJoin (chars "\n  - ") (validateErrors ent old new profTeam strict) := by
        simp [errMsgOf, List.append_assoc]
      rw [heq]
      exact h1.trans h2.isInfix

def entC6 : EntDoc :=
  [(appIdKey, PValue.s (chars "TEAM123.com.new.app")),
   (appleAppIdKey, PValue.s (chars "TEAM123.com.other.app"))]

def pathC6 : Str := chars "Payload/App.app"

/-- Witness for C6: a document with two violations (mismatched dual identifier
keys, and a value differing from the expected identifier) yields one error whose
message contains the bundle path and both violations. -/
theorem validate_reports_all_violations_witness :
    isErr (validate_entitlements_for_bundle pathC6 (some entC6) (chars "com.old.app")
      (chars "com.new.app") (chars "TEAM123") false) = true ∧
    pathC6 <:+: errMsgOf (validate_entitlements_for_bundle pathC6 (some entC6)
      (chars "com.old.app") (chars "com.new.app") (chars "TEAM123") false) ∧
    chars "application-identifier and com.apple.application-identifier must match"
      <:+: errMsgOf (validate_entitlements_for_bundle pathC6 (some entC6)
        (chars "com.old.app") (chars "com.new.app") (chars "TEAM123") false) ∧
    chars "com.apple.application-identifier mismatch: expected TEAM123.com.new.app, got TEAM123.com.other.app"
      <:+: errMsgOf (validate_entitlements_for_bundle pathC6 (some entC6)
        (chars "com.old.app") (chars "com.new.app") (chars "TEAM123") false) := by
  have h := (validate_reports_all_violations pathC6 entC6 (chars "com.old.app")
    (chars "com.new.app") (chars "TEAM123") false).2.2 (by decide)
  exact ⟨h.1, h.2.1, h.2.2 _ (by decide), h.2.2 _ (by decide)⟩

/-- C7: when a team identifier is determinable, the bundle id changed (old and
new both non-empty and different), and `keychain-access-groups` holds a list,
validation rejects the document whenever some element of the list still carries
the `teamId + "." + oldId` prefix. -/
theorem validate_rejects_stale_kag
    (bundle_path : Str) (ent : EntDoc) (old new profTeam : Str) (strict : Bool)
    (kag : List PValue)
    (hkag : dget ent kagKey = some (PValue.arr kag))
    (hteam : computedTeam ent profTeam ≠ [])
    (hold : old ≠ []) (hnew : new ≠ []) (hne : old ≠ new)
    (hstale : ∃ v, PValue.s v ∈ kag ∧
      (computedTeam ent profTeam ++ '.' :: old).isPrefixOf v = true) :
    isErr (validate_entitlements_for_bundle bundle_path (some ent) old new
      profTeam strict) = true := by
  obtain ⟨v, hv, hp⟩ := hstale
  have hfilter : (kag.filter fun x =>
      match x with
      | PValue.s w => (computedTeam ent profTeam ++ '.' :: old).isPrefixOf w
      | _ => false) ≠ [] := by
    have : PValue.s v ∈ kag.filter fun x =>
        match x with
        | PValue.s w => (computedTeam ent profTeam ++ '.' :: old).isPrefixOf w
        | _ => false := by
      rw [List.mem_filter]
      exact ⟨hv, hp⟩
    exact List.ne_nil_of_mem this
  have hkagErr : kagErrors ent (computedTeam ent profTeam) old new ≠ [] := by
    unfold kagErrors
    rw [hkag]
    dsimp only
    have hguard : computedTeam ent profTeam ≠ [] ∧ old ≠ [] ∧ new ≠ [] ∧ old ≠ new :=
      ⟨hteam, hold, hnew, hne⟩
    rw [if_pos hguard, if_pos hfilter]
    intro hc
    rw [List.append_eq_nil] at hc
    cases hc.2
  have herrs : validateErrors ent old new profTeam strict ≠ [] := by
    unfold validateErrors
    intro hc
    rw [List.append_eq_nil] at hc
    exact hkagErr hc.2
  simp [validate_entitlements_for_bundle, herrs, isErr]

def entC7 : EntDoc :=
  [(appIdKey, PValue.s (chars "TEAM123.com.new.app")),
   (kagKey, PValue.arr [PValue.s (chars "TEAM123.com.old.app"),
     PValue.s (chars "TEAM123.com.new.app.shared")])]

/-- Witness for C7 at the repository's own test vector: a stale
`TEAM123.com.old.app` keychain group after the id change is rejected. -/
theorem validate_rejects_stale_kag_witness :
    isErr (validate_entitlements_for_bundle pathC6 (some entC7) (chars "com.old.app")
      (chars "com.new.app") (chars "TEAM123") false) = true :=
  validate_rejects_stale_kag pathC6 entC7 (chars "com.old.app") (chars "com.new.app")
    (chars "TEAM123") false
    [PValue.s (chars "TEAM123.com.old.app"), PValue.s (chars "TEAM123.com.new.app.shared")]
    (by decide) (by decide) (by decide) (by decide) (by decide)
    ⟨chars "TEAM123.com.old.app", by decide, by decide⟩

/-! ## Entitlements resolution

Two resolvers exist in the source:
  - the inline loop of `_resign_ipa_in_tempdir` (`ipa.py`, lines 404-427),
    embedded as `ipaResolveOne` / `ipaEntByBundle`;
  - the module-level `build_entitlements_by_bundle` (`entitlements.py`,
    lines 128-175), embedded as `build_one` / `build_entitlements_by_bundle`.
Both share the same source selection (explicit document, else extraction,
else profile entitlements, else absent), embedded once as `resolveSelection`.
-/

/-- Decoded provisioning profile (`provisioning.py`, `ProvisioningProfile`). -/
structure ProvisioningProfile where
  raw : EntDoc
  team_id : Str
  entitlements : EntDoc

/-- Source selection shared by both resolvers: the explicit document if
supplied, else the extraction result, else the profile's entitlements
(`dict(profile.entitlements)` copies by value), else absent. -/
def resolveSelection (b : Str) (explicit_entitlements : Option EntDoc)
    (profile : Option ProvisioningProfile)
    (extract_entitlements : Str → Option EntDoc) : Option EntDoc :=
  match explicit_entitlements with
  | some e => some e
  | none =>
    match extract_entitlements b, profile with
    | none, some pr => some pr.entitlements
    | e0, _ => e0

/-- The conditional rewrite applied by both resolvers:
`if profile is not None and b in bundle_ids: adjust(...)`. -/
def rewriteStage (profile : Option ProvisioningProfile)
    (bundle_ids : List (Str × (Str × Str))) (b : Str) (ent : EntDoc) : EntDoc :=
  match profile, alookup bundle_ids b with
  | some pr, some ids => adjust_entitlements_for_bundle ent pr.team_id ids.1 ids.2
  | _, _ => ent

/-- One iteration of the inline resolution loop of `_resign_ipa_in_tempdir`:
an explicit document is stored verbatim (`continue`, before any extraction or
rewriting); otherwise the selected document, rewritten when a profile is
present and the bundle has an identifier pair. -/
def ipaResolveOne (b : Str) (explicit_entitlements : Option EntDoc)
    (profile : Option ProvisioningProfile)
    (extract_entitlements : Str → Option EntDoc)
    (bundle_ids : List (Str × (Str × Str))) : Option EntDoc :=
  match explicit_entitlements with
  | some e => some e
  | none =>
    match resolveSelection b none profile extract_entitlements with
    | none => none
    | some ent => some (rewriteStage profile bundle_ids b ent)

/-- The whole `ent_by_bundle` dictionary built by the inline loop. -/
def ipaEntByBundle (bundles : List Str) (explicit_entitlements : Option EntDoc)
    (profile : Option ProvisioningProfile)
    (extract_entitlements : Str → Option EntDoc)
    (bundle_ids : List (Str × (Str × Str))) : List (Str × Option EntDoc) :=
  bundles.map fun b =>
    (b, ipaResolveOne b explicit_entitlements profile extract_entitlements bundle_ids)

def profileTeam : Option ProvisioningProfile → Str
  | some pr => pr.team_id
  | none => []

/-- One iteration of `build_entitlements_by_bundle`: source selection, then
the rewrite, then validation (which aborts the whole build on violation), for
every selected document including an explicit one. -/
def build_one (b : Str) (bundle_ids : List (Str × (Str × Str)))
    (explicit_entitlements : Option EntDoc) (profile : Option ProvisioningProfile)
    (extract_entitlements : Str → Option EntDoc)
    (require_app_identifier : Bool) : Except Str (Option EntDoc) :=
  match resolveSelection b explicit_entitlements profile extract_entitlements with
  | none => .ok none
  | some ent =>
    let ent2 := rewriteStage profile bundle_ids b ent
    match alookup bundle_ids b with
    | some ids =>
      match validate_entitlements_for_bundle b (some ent2) ids.1 ids.2
          (profileTeam profile) require_app_identifier with
      | .ok _ => .ok (some ent2)
      | .error m => .error m
    | none => .ok (some ent2)

def build_entitlements_by_bundle (bundles : List Str)
    (bundle_ids : List (Str × (Str × Str)))
    (explicit_entitlements : Option EntDoc) (profile : Option ProvisioningProfile)
    (extract_entitlements : Str → Option EntDoc)
    (require_app_identifier : Bool) : Except Str (List (Str × Option EntDoc)) :=
  match bundles with
  | [] => .ok []
  | b :: rest =>
    match build_one b bundle_ids explicit_entitlements profile extract_entitlements
        require_app_identifier with
    | .error m => .error m
    | .ok v =>
      match build_entitlements_by_bundle rest bundle_ids explicit_entitlements
          profile extract_entitlements require_app_identifier with
      | .error m => .error m
      | .ok l => .ok ((b, v) :: l)

/-- C4: the pipeline's per-bundle entitlements resolution follows the spec's
precedence: an explicit document is used verbatim (independently of the
extraction function, which is never consulted); otherwise the extracted
document feeds the rewrite stage; otherwise the profile's entitlement set
does; otherwise the bundle's entry holds the absent marker. The final
conjunct ties the per-bundle value to the `ent_by_bundle` map. -/
theorem pipeline_resolution_precedence
    (bundles : List Str) (explicit_entitlements : Option EntDoc)
    (profile : Option ProvisioningProfile)
    (extract_entitlements : Str → Option EntDoc)
    (bundle_ids : List (Str × (Str × Str))) (b : Str) :
    (∀ e, explicit_entitlements = some e →
      ∀ f : Str → Option EntDoc,
        ipaResolveOne b explicit_entitlements profile f bundle_ids = some e) ∧
    (explicit_entitlements = none → ∀ d, extract_entitlements b = some d →
      ipaResolveOne b explicit_entitlements profile extract_entitlements bundle_ids
        = some (rewriteStage profile bundle_ids b d)) ∧
    (explicit_entitlements = none → extract_entitlements b = none →
      ∀ pr, profile = some pr →
        ipaResolveOne b explicit_entitlements profile extract_entitlements bundle_ids
          = some (rewriteStage profile bundle_ids b pr.entitlements)) ∧
    (explicit_entitlements = none → extract_entitlements b = none → profile = none →
      ipaResolveOne b explicit_entitlements profile extract_entitlements bundle_ids
        = none) ∧
    (b ∈ bundles →
      alookup (ipaEntByBundle bundles explicit_entitlements profile
          extract_entitlements bundle_ids) b
        = some (ipaResolveOne b explicit_entitlements profile extract_entitlements
            bundle_ids)) := by
  refine ⟨?_, ?_, ?_, ?_, ?_⟩
  · intro e he f
    subst he
    rfl
  · intro he d hd
    subst he
    simp [ipaResolveOne, resolveSelection, hd]
  · intro he hd pr hpr
    subst he
    subst hpr
    simp [ipaResolveOne, resolveSelection, hd]
  · intro he hd hpr
    subst he
    subst hpr
    simp [ipaResolveOne, resolveSelection, hd]
  · intro hb
    unfold ipaEntByBundle
    rw [alookup_map_value]
    rw [if_pos hb]

def entC4 : EntDoc := [(appIdKey, PValue.s (chars "TEAM123.com.old.app"))]

def prC4 : ProvisioningProfile := ProvisioningProfile.mk [] (chars "TEAM123") entC4

/-- Witness for C4: all five conjuncts instantiated at concrete inputs. -/
theorem pipeline_resolution_precedence_witness :
    ipaResolveOne (chars "b") (some entC4) (some prC4) (fun _ => none) [] = some entC4 ∧
    ipaResolveOne (chars "b") none (some prC4) (fun _ => some entC4) []
      = some (rewriteStage (some prC4) [] (chars "b") entC4) ∧
    ipaResolveOne (chars "b") none (some prC4) (fun _ => none) []
      = some (rewriteStage (some prC4) [] (chars "b") prC4.entitlements) ∧
    ipaResolveOne (chars "b") none none (fun _ => none) [] = none ∧
    alookup (ipaEntByBundle [chars "b"] none none (fun _ => none) []) (chars "b")
      = some (ipaResolveOne (chars "b") none none (fun _ => none) []) := by
  refine ⟨?_, ?_, ?_, ?_, ?_⟩
  · exact (pipeline_resolution_precedence [] (some entC4) (some prC4)
      (fun _ => none) [] (chars "b")).1 entC4 rfl (fun _ => none)
  · exact (pipeline_resolution_precedence [] none (some prC4)
      (fun _ => some entC4) [] (chars "b")).2.1 rfl entC4 rfl
  · exact (pipeline_resolution_precedence [] none (some prC4)
      (fun _ => none) [] (chars "b")).2.2.1 rfl rfl prC4 rfl
  · exact (pipeline_resolution_precedence [] none none
      (fun _ => none) [] (chars "b")).2.2.2.1 rfl rfl rfl
  · exact (pipeline_resolution_precedence [chars "b"] none none
      (fun _ => none) [] (chars "b")).2.2.2.2 (by decide)

theorem build_one_ok_val (b : Str) (bundle_ids : List (Str × (Str × Str)))
    (profile : Option ProvisioningProfile) (extract_entitlements : Str → Option EntDoc)
    (v : Option EntDoc)
    (h : build_one b bundle_ids none profile extract_entitlements false = .ok v) :
    v = ipaResolveOne b none profile extract_entitlements bundle_ids := by
  unfold build_one at h
  unfold ipaResolveOne
  cases hsel : resolveSelection b none profile extract_entitlements with
  | none =>
    rw [hsel] at h
    injection h with h
    rw [← h]
  | some ent =>
    rw [hsel] at h
    dsimp only at h
    cases halo : alookup bundle_ids b with
    | none =>
      rw [halo] at h
      injection h with h
      rw [← h]
    | some ids =>
      rw [halo] at h
      dsimp only at h
      cases hval : validate_entitlements_for_bundle b
          (some (rewriteStage profile bundle_ids b ent)) ids.1 ids.2
          (profileTeam profile) false with
      | ok u =>
        rw [hval] at h
        injection h with h
        rw [← h]
      | error m =>
        rw [hval] at h
        cases h

/-- Amended C10: without an explicit entitlements document, whenever the
module-level resolver (`build_entitlements_by_bundle`, strict mode off) returns
successfully, its map equals the map computed by the pipeline's inline loop;
with an explicit document the module resolver additionally rewrites and
validates it per bundle while the inline loop stores it verbatim, so the two
can differ (see the counterexample). -/
theorem build_refines_pipeline_without_explicit
    (bundles : List Str) (bundle_ids : List (Str × (Str × Str)))
    (profile : Option ProvisioningProfile) (extract_entitlements : Str → Option EntDoc)
    (m : List (Str × Option EntDoc))
    (h : build_entitlements_by_bundle bundles bundle_ids none profile
      extract_entitlements false = .ok m) :
    m = ipaEntByBundle bundles none profile extract_entitlements bundle_ids := by
  induction bundles generalizing m with
  | nil =>
    unfold build_entitlements_by_bundle at h
    injection h with h
    rw [← h]
    rfl
  | cons b rest ih =>
    unfold build_entitlements_by_bundle at h
    cases hb : build_one b bundle_ids none profile extract_entitlements false with
    | error m0 =>
      rw [hb] at h
      cases h
    | ok v =>
      rw [hb] at h
      cases hr : build_entitlements_by_bundle rest bundle_ids none profile
          extract_entitlements false with
      | error m0 =>
        rw [hr] at h
        cases h
      | ok l =>
        rw [hr] at h
        injection h with h
        rw [← h]
        unfold ipaEntByBundle
        simp only [List.map_cons]
        have hv := build_one_ok_val b bundle_ids profile extract_entitlements v hb
        rw [hv]
        have hl := ih l hr
        rw [hl]
        rfl

def bC10 : Str := chars "Payload/App.app"

def idsC10 : List (Str × (Str × Str)) :=
  [(bC10, (chars "com.old.app", chars "com.new.app"))]

def explicitC10 : EntDoc := [(appIdKey, PValue.s (chars "TEAM123.com.old.app"))]

def prC10 : ProvisioningProfile := ProvisioningProfile.mk [] (chars "TEAM123") []

/-- Counterexample to C10 as stated: with an explicit entitlements document,
the module-level resolver rewrites (and validates) it per bundle, while the
pipeline's inline loop stores it verbatim, so the two maps differ. -/
theorem build_vs_pipeline_differ :
    build_entitlements_by_bundle [bC10] idsC10 (some explicitC10) (some prC10)
        (fun _ => none) false
      = .ok [(bC10, some [(appIdKey, PValue.s (chars "TEAM123.com.new.app"))])] ∧
    ipaEntByBundle [bC10] (some explicitC10) (some prC10) (fun _ => none) idsC10
      = [(bC10, some explicitC10)] ∧
    ([(bC10, some [(appIdKey, PValue.s (chars "TEAM123.com.new.app"))])]
        : List (Str × Option EntDoc))
      ≠ [(bC10, some explicitC10)] := by
  refine ⟨rfl, rfl, by decide⟩

def prC10b : ProvisioningProfile :=
  ProvisioningProfile.mk [] (chars "TEAM123") explicitC10

/-- Witness for the amended C10 at a concrete input on which the module
resolver succeeds without an explicit document. -/
theorem build_refines_pipeline_witness :
    ([(bC10, some [(appIdKey, PValue.s (chars "TEAM123.com.new.app"))])]
        : List (Str × Option EntDoc))
      = ipaEntByBundle [bC10] none (some prC10b) (fun _ => none) idsC10 :=
  build_refines_pipeline_without_explicit [bC10] idsC10 (some prC10b)
    (fun _ => none) _ rfl

/-! ## Signing orchestration

Embeds `sign_bundle_recursive` (`pipeline_utils.py`, lines 25-97; the body of
`_sign_bundle_recursive` in `ipa.py` is identical) as a trace of
signing-service operations over a bundle tree, plus the single strict
verification the pipeline performs after the walk
(`_resign_ipa_in_tempdir`, lines 430-436).

A `BundleNode` records what the walk discovers on disk for one bundle
directory: the `.appex` bundles listed under `PlugIns`, the `.app` bundles
found by the recursive walk under `Watch`, the `.framework` directories and
`.dylib`/`.so` files under `Frameworks`, and the `.xpc` bundles under
`XPCServices`, each in discovery order.
-/

inductive BundleNode where
  | mk (path : Str) (plugins watchApps : List BundleNode)
       (frameworks dylibs : List Str) (xpcs : List BundleNode)

def BundleNode.path : BundleNode → Str
  | .mk p _ _ _ _ _ => p

def BundleNode.plugins : BundleNode → List BundleNode
  | .mk _ pl _ _ _ _ => pl

def BundleNode.watchApps : BundleNode → List BundleNode
  | .mk _ _ w _ _ _ => w

def BundleNode.frameworks : BundleNode → List Str
  | .mk _ _ _ fw _ _ => fw

def BundleNode.dylibs : BundleNode → List Str
  | .mk _ _ _ _ dy _ => dy

def BundleNode.xpcs : BundleNode → List BundleNode
  | .mk _ _ _ _ _ xp => xp

/-- One signing-service operation, in the order the walk issues them. -/
inductive SignOp where
  | removeSig (path : Str)
  | sign (path : Str) (ents : Option EntDoc)
  | verify (path : Str)

/-- Python `entitlements_by_bundle.get(path)` on a `dict[str, dict | None]`:
a missing key and a `None` value both yield no entitlements. -/
def mapGet (m : List (Str × Option EntDoc)) (b : Str) : Option EntDoc :=
  match alookup m b with
  | some v => v
  | none => none

/-- The operation sequence of `sign_bundle_recursive`: recurse into PlugIns,
then Watch apps, then strip-and-sign frameworks and dylibs (identity only),
then recurse into XPC services, and finally strip and sign the bundle itself
with its entitlements from the map. -/
def signTrace (m : List (Str × Option EntDoc)) : BundleNode → List SignOp
  | .mk p pl w fw dy xp =>
    (pl.attach.map fun c => signTrace m c.1).flatten ++
    (w.attach.map fun c => signTrace m c.1).flatten ++
    (fw.map fun q => [SignOp.removeSig q, SignOp.sign q none]).flatten ++
    (dy.map fun q => [SignOp.removeSig q, SignOp.sign q none]).flatten ++
    (xp.attach.map fun c => signTrace m c.1).flatten ++
    [SignOp.removeSig p, SignOp.sign p (mapGet m p)]
termination_by n => sizeOf n
decreasing_by
  all_goals
    (have h := List.sizeOf_lt_of_mem c.2; simp; omega)

/-- The signing phase of `_resign_ipa_in_tempdir`: the recursive walk from the
main app followed by exactly one strict verification of the main app. -/
def pipelineSignPhase (m : List (Str × Option EntDoc)) (root : BundleNode) :
    List SignOp :=
  signTrace m root ++ [SignOp.verify root.path]

def isVerifyOp : SignOp → Bool
  | .verify _ => true
  | _ => false

/-- Direct sub-bundles a container recurses into: PlugIns `.appex` children,
Watch `.app` sub-applications and XPCServices `.xpc` children. -/
def childBundles (n : BundleNode) : List BundleNode :=
  n.plugins ++ n.watchApps ++ n.xpcs

/-- Frameworks and dylibs signed with the identity alone. -/
def leafTargets (n : BundleNode) : List Str :=
  n.frameworks ++ n.dylibs

theorem signTrace_no_verify_aux (m : List (Str × Option EntDoc)) (q : Str) :
    ∀ k : Nat, ∀ n : BundleNode, sizeOf n ≤ k → SignOp.verify q ∉ signTrace m n := by
  intro k
  induction k with
  | zero =>
    intro n hn
    cases n with
    | mk p pl w fw dy xp => simp at hn
  | succ k ih =>
    intro n hn hmem
    cases n with
    | mk p pl w fw dy xp =>
      simp only [signTrace, List.mem_append] at hmem
      rcases hmem with ((((h | h) | h) | h) | h) | h
      · rw [List.mem_flatten] at h
        obtain ⟨l, hl, hml⟩ := h
        rw [List.mem_map] at hl
        obtain ⟨c, hc, rfl⟩ := hl
        have hlt : sizeOf c.1 < sizeOf pl := List.sizeOf_lt_of_mem c.2
        have : sizeOf pl < sizeOf (BundleNode.mk p pl w fw dy xp) := by
          simp <;> omega
        exact ih c.1 (by omega) hml
      · rw [List.mem_flatten] at h
        obtain ⟨l, hl, hml⟩ := h
        rw [List.mem_map] at hl
        obtain ⟨c, hc, rfl⟩ := hl
        have hlt : sizeOf c.1 < sizeOf w := List.sizeOf_lt_of_mem c.2
        have : sizeOf w < sizeOf (BundleNode.mk p pl w fw dy xp) := by
          simp <;> omega
        exact ih c.1 (by omega) hml
      · rw [List.mem_flatten] at h
        obtain ⟨l, hl, hml⟩ := h
        rw [List.mem_map] at hl
        obtain ⟨q2, hq, rfl⟩ := hl
        simp at hml
      · rw [List.mem_flatten] at h
        obtain ⟨l, hl, hml⟩ := h
        rw [List.mem_map] at hl
        obtain ⟨q2, hq, rfl⟩ := hl
        simp at hml
      · rw [List.mem_flatten] at h
        obtain ⟨l, hl, hml⟩ := h
        rw [List.mem_map] at hl
        obtain ⟨c, hc, rfl⟩ := hl
        have hlt : sizeOf c.1 < sizeOf xp := List.sizeOf_lt_of_mem c.2
        have : sizeOf xp < sizeOf (BundleNode.mk p pl w fw dy xp) := by
          simp <;> omega
        exact ih c.1 (by omega) hml
      · simp at h

theorem signTrace_no_verify (m : List (Str × Option EntDoc)) (q : Str)
    (n : BundleNode) : SignOp.verify q ∉ signTrace m n :=
  signTrace_no_verify_aux m q (sizeOf n) n (Nat.le_refl _)

theorem signTrace_last (m : List (Str × Option EntDoc)) (n : BundleNode) :
    ∃ pre, signTrace m n = pre ++
      [SignOp.sign (BundleNode.path n) (mapGet m (BundleNode.path n))] := by
  cases n with
  | mk p pl w fw dy xp =>
    refine ⟨(pl.attach.map fun c => signTrace m c.1).flatten ++
      ((w.attach.map fun c => signTrace m c.1).flatten ++
      ((fw.map fun q => [SignOp.removeSig q, SignOp.sign q none]).flatten ++
      ((dy.map fun q => [SignOp.removeSig q, SignOp.sign q none]).flatten ++
      ((xp.attach.map fun c => signTrace m c.1).flatten ++
      [SignOp.removeSig p])))), ?_⟩
    simp [signTrace, BundleNode.path, List.append_assoc]

theorem sign_mem_signTrace (m : List (Str × Option EntDoc)) (n : BundleNode) :
    SignOp.sign (BundleNode.path n) (mapGet m (BundleNode.path n)) ∈ signTrace m n := by
  obtain ⟨pre, hp⟩ := signTrace_last m n
  rw [hp]
  simp

theorem mem_flatten_attach (m : List (Str × Option EntDoc)) (l : List BundleNode)
    (c : BundleNode) (hc : c ∈ l) (a : SignOp) (ha : a ∈ signTrace m c) :
    a ∈ (l.attach.map fun x => signTrace m x.1).flatten := by
  rw [List.mem_flatten]
  exact ⟨signTrace m c, List.mem_map.mpr ⟨⟨c, hc⟩, List.mem_attach _ _, rfl⟩, ha⟩

theorem mem_flatten_pairs (l : List Str) (q : Str) (hq : q ∈ l) :
    SignOp.sign q none ∈
      (l.map fun x => [SignOp.removeSig x, SignOp.sign x none]).flatten := by
  rw [List.mem_flatten]
  exact ⟨[SignOp.removeSig q, SignOp.sign q none],
    List.mem_map.mpr ⟨q, hq, rfl⟩, by simp⟩

/-- C5: in the operation sequence of the recursive signing walk, the container's
own sign step is the last operation, and the sign step of every direct
sub-bundle (PlugIns `.appex`, Watch `.app`, XPCServices `.xpc`) and of every
framework/dylib occurs strictly before it; and the pipeline's signing phase
contains exactly one strict verification, which targets the root and comes
after the root's own sign step. Instantiated at every node, this orders every
contained bundle before its container. -/
theorem sign_order_spec (m : List (Str × Option EntDoc)) (n : BundleNode) :
    (∃ pre, signTrace m n = pre ++
        [SignOp.sign (BundleNode.path n) (mapGet m (BundleNode.path n))] ∧
      (∀ c ∈ childBundles n,
        SignOp.sign (BundleNode.path c) (mapGet m (BundleNode.path c)) ∈ pre) ∧
      (∀ q ∈ leafTargets n, SignOp.sign q none ∈ pre)) ∧
    List.countP isVerifyOp (pipelineSignPhase m n) = 1 ∧
    ∃ pre2, pipelineSignPhase m n = pre2 ++ [SignOp.verify (BundleNode.path n)] ∧
      SignOp.sign (BundleNode.path n) (mapGet m (BundleNode.path n)) ∈ pre2 := by
  refine ⟨?_, ?_, ⟨signTrace m n, rfl, sign_mem_signTrace m n⟩⟩
  · cases n with
    | mk p pl w fw dy xp =>
      refine ⟨(pl.attach.map fun c => signTrace m c.1).flatten ++
        ((w.attach.map fun c => signTrace m c.1).flatten ++
        ((fw.map fun q => [SignOp.removeSig q, SignOp.sign q none]).flatten ++
        ((dy.map fun q => [SignOp.removeSig q, SignOp.sign q none]).flatten ++
        ((xp.attach.map fun c => signTrace m c.1).flatten ++
        [SignOp.removeSig p])))), ?_, ?_, ?_⟩
      · simp [signTrace, BundleNode.path, List.append_assoc]
      · intro c hc
        have hc' : c ∈ pl ++ w ++ xp := by
          simpa [childBundles, BundleNode.plugins, BundleNode.watchApps,
            BundleNode.xpcs] using hc
        have hsign := sign_mem_signTrace m c
        rcases List.mem_append.mp hc' with hcc | hcx
        · rcases List.mem_append.mp hcc with hcp | hcw
          · exact List.mem_append_left _ (mem_flatten_attach m pl c hcp _ hsign)
          · exact List.mem_append_right _ (List.mem_append_left _
              (mem_flatten_attach m w c hcw _ hsign))
        · exact List.mem_append_right _ (List.mem_append_right _
            (List.mem_append_right _ (List.mem_append_right _
              (List.mem_append_left _ (mem_flatten_attach m xp c hcx _ hsign)))))
      · intro q hq
        have hq' : q ∈ fw ++ dy := by
          simpa [leafTargets, BundleNode.frameworks, BundleNode.dylibs] using hq
        rcases List.mem_append.mp hq' with hqf | hqd
        · exact List.mem_append_right _ (List.mem_append_right _
            (List.mem_append_left _ (mem_flatten_pairs fw q hqf)))
        · exact List.mem_append_right _ (List.mem_append_right _
            (List.mem_append_right _ (List.mem_append_left _
              (mem_flatten_pairs dy q hqd))))
  · rw [pipelineSignPhase, List.countP_append]
    have h0 : List.countP isVerifyOp (signTrace m n) = 0 := by
      rw [List.countP_eq_zero]
      intro a ha
      cases a with
      | verify r => exact absurd ha (signTrace_no_verify m r n)
      | removeSig r => simp [isVerifyOp]
      | sign r e => simp [isVerifyOp]
    rw [h0]
    simp [isVerifyOp]

def appexC5 : BundleNode :=
  BundleNode.mk (chars "Payload/Main.app/PlugIns/Share.appex") [] [] [] [] []

def xpcC5 : BundleNode :=
  BundleNode.mk (chars "Payload/Main.app/XPCServices/Agent.xpc") [] [] [] [] []

def rootC5 : BundleNode :=
  BundleNode.mk (chars "Payload/Main.app") [appexC5] []
    [chars "Payload/Main.app/Frameworks/Core.framework"]
    [chars "Payload/Main.app/Frameworks/libX.dylib"] [xpcC5]

def mC5 : List (Str × Option EntDoc) :=
  [(chars "Payload/Main.app", some [(appIdKey, PValue.s (chars "TEAM123.com.new.app"))])]

/-- Witness for C5 at the spec's end-to-end tree (`Main.app` with a PlugIns
extension, a framework, a dylib and an XPC service). -/
theorem sign_order_spec_witness :
    (∃ pre, signTrace mC5 rootC5 = pre ++
        [SignOp.sign (BundleNode.path rootC5) (mapGet mC5 (BundleNode.path rootC5))] ∧
      SignOp.sign (BundleNode.path appexC5) (mapGet mC5 (BundleNode.path appexC5)) ∈ pre ∧
      SignOp.sign (chars "Payload/Main.app/Frameworks/libX.dylib") none ∈ pre) ∧
    List.countP isVerifyOp (pipelineSignPhase mC5 rootC5) = 1 := by
  obtain ⟨⟨pre, heq, hch, hlf⟩, hcount, _⟩ := sign_order_spec mC5 rootC5
  refine ⟨⟨pre, heq, hch appexC5 ?_, hlf _ ?_⟩, hcount⟩
  · simp [childBundles, rootC5, BundleNode.plugins, BundleNode.watchApps,
      BundleNode.xpcs]
  · simp [leafTargets, rootC5, BundleNode.frameworks, BundleNode.dylibs]

/-! ## Temporary entitlements file lifecycle (C8)

Embeds the final per-bundle portion of `sign_bundle_recursive`
(`pipeline_utils.py`, lines 82-97; identical in `ipa.py`, lines 209-224):

    codesign.remove_signature(bundle_path)
    ents = entitlements_by_bundle.get(bundle_path)
    ent_path = None
    try:
        if ents is not None:
            ent_path = codesign.write_entitlements(ents)
        codesign.sign(bundle_path, identity, entitlements_path=ent_path)
    finally:
        if ent_path and os.path.exists(ent_path):
            try: os.remove(ent_path)
            except OSError: pass

External effects are oracles: `writeResult` is what `write_entitlements`
does (a temp path, or an exception), `signResult` what `codesign.sign` does
for a given entitlements-path argument, `fileExists` the `os.path.exists`
check and `removeSucceeds` whether `os.remove` succeeds (on failure the
`OSError` is swallowed). The first component is the step's outcome, the
second the audit trail of performed effects. -/

inductive SignAction where
  | removedSig (path : Str)
  | wroteTemp (path : Str)
  | signedCall (path : Str) (entPath : Option Str)
  | attemptedDelete (path : Str)
  | deleted (path : Str)

def signSelfStep (bundle_path : Str) (ents : Option EntDoc)
    (writeResult : Except Str Str)
    (signResult : Option Str → Except Str Unit)
    (fileExists removeSucceeds : Str → Bool) :
    Except Str Unit × List SignAction :=
  match ents with
  | none =>
    (signResult none, [SignAction.removedSig bundle_path,
      SignAction.signedCall bundle_path none])
  | some _ =>
    match writeResult with
    | .error e =>
      (.error e, [SignAction.removedSig bundle_path])
    | .ok p =>
      let acts1 := [SignAction.removedSig bundle_path, SignAction.wroteTemp p,
        SignAction.signedCall bundle_path (some p)]
      if fileExists p then
        if removeSucceeds p then
          (signResult (some p), acts1 ++ [SignAction.attemptedDelete p,
            SignAction.deleted p])
        else
          (signResult (some p), acts1 ++ [SignAction.attemptedDelete p])
      else (signResult (some p), acts1)

/-- C8: whenever the temporary entitlements file was created (and still
exists at cleanup time) its deletion is attempted on every execution path;
a deletion failure never changes the step's outcome (it is swallowed); a
failure of the entitlements write propagates as the step's error; and the
sign call's outcome — success or failure — is the step's outcome,
unmasked by cleanup. -/
theorem temp_entitlements_always_cleaned
    (bundle_path : Str) (ents : Option EntDoc) (writeResult : Except Str Str)
    (signResult : Option Str → Except Str Unit)
    (fileExists removeSucceeds : Str → Bool) :
    (∀ e p, ents = some e → writeResult = .ok p → fileExists p = true →
      SignAction.attemptedDelete p ∈
        (signSelfStep bundle_path ents writeResult signResult fileExists
          removeSucceeds).2) ∧
    (∀ r1 r2 : Str → Bool,
      (signSelfStep bundle_path ents writeResult signResult fileExists r1).1 =
      (signSelfStep bundle_path ents writeResult signResult fileExists r2).1) ∧
    (∀ e err, ents = some e → writeResult = .error err →
      (signSelfStep bundle_path ents writeResult signResult fileExists
        removeSucceeds).1 = .error err) ∧
    (∀ e p, ents = some e → writeResult = .ok p →
      (signSelfStep bundle_path ents writeResult signResult fileExists
        removeSucceeds).1 = signResult (some p)) ∧
    (ents = none →
      (signSelfStep bundle_path ents writeResult signResult fileExists
        removeSucceeds).1 = signResult none) := by
  refine ⟨?_, ?_, ?_, ?_, ?_⟩
  · intro e p he hw hx
    subst he
    by_cases hr : removeSucceeds p = true <;>
      simp [signSelfStep, hw, hx, hr]
  · intro r1 r2
    cases ents with
    | none => rfl
    | some e =>
      cases writeResult with
      | error err => rfl
      | ok p =>
        by_cases hx : fileExists p = true <;>
          by_cases h1 : r1 p = true <;>
          by_cases h2 : r2 p = true <;>
          simp [signSelfStep, hx, h1, h2]
  · intro e err he hw
    subst he
    simp [signSelfStep, hw]
  · intro e p he hw
    subst he
    by_cases hx : fileExists p = true <;>
      by_cases hr : removeSucceeds p = true <;>
      simp [signSelfStep, hw, hx, hr]
  · intro he
    subst he
    rfl

def entC8 : EntDoc := [(appIdKey, PValue.s (chars "TEAM123.com.new.app"))]

def tmpC8 : Str := chars "/tmp/ents_1.plist"

/-- Witness for C8: with a created temp file, a failing sign call, an existing
file and a failing delete, the delete is attempted, the outcome is the same as
with a succeeding delete, and the sign failure is the step's outcome. -/
theorem temp_entitlements_always_cleaned_witness :
    SignAction.attemptedDelete tmpC8 ∈
      (signSelfStep (chars "Payload/Main.app") (some entC8) (.ok tmpC8)
        (fun _ => .error (chars "codesign failed")) (fun _ => true)
        (fun _ => false)).2 ∧
    (signSelfStep (chars "Payload/Main.app") (some entC8) (.ok tmpC8)
        (fun _ => .error (chars "codesign failed")) (fun _ => true)
        (fun _ => false)).1 =
      (signSelfStep (chars "Payload/Main.app") (some entC8) (.ok tmpC8)
        (fun _ => .error (chars "codesign failed")) (fun _ => true)
        (fun _ => true)).1 ∧
    (signSelfStep (chars "Payload/Main.app") (some entC8) (.ok tmpC8)
        (fun _ => .error (chars "codesign failed")) (fun _ => true)
        (fun _ => false)).1 = .error (chars "codesign failed") := by
  have h := temp_entitlements_always_cleaned (chars "Payload/Main.app") (some entC8)
    (.ok tmpC8) (fun _ => .error (chars "codesign failed")) (fun _ => true)
    (fun _ => false)
  exact ⟨h.1 entC8 tmpC8 rfl rfl rfl,
    h.2.1 (fun _ => false) (fun _ => true),
    h.2.2.2.1 entC8 tmpC8 rfl rfl⟩
